import Mathlib

/-!
Shallow embedding of the webhook-driven reconciliation engine of the Mizu
blog backend (Rust), together with proofs about its behaviour.

Conventions of the embedding:
* Rust `String`/`&str` become Lean `String`; byte slices become `List Nat`
  (one `Nat` per byte).
* `time::OffsetDateTime` and `chrono::DateTime<Utc>` are modelled as `Int`
  unix timestamps.
* Fallible Rust functions returning `Result<T>` become `Except ε T`.
* `HashMap<String, String>` is modelled as an association list
  `List (String × String)` with insert-or-replace semantics; `HashSet<String>`
  as a `List String` queried through `List.contains` (same membership
  semantics; iteration order of the hash containers is arbitrary in Rust,
  the association list fixes one order, and no theorem below depends on it).
* External collaborators that are not part of the repository's own sources
  (the `hmac`/`sha2` crates, the `gray_matter` front-matter parser, the
  GitHub content-fetch client, the database driver) enter as explicit
  function arguments, so every theorem quantifies over their behaviour.
-/

namespace Mizu

/-! ## Domain model (src/backend/src/domain/articles.rs) -/

/-- `PostCategory` from `domain/articles.rs`: the closed category enumeration. -/
inductive PostCategory where
  | article
  | note
  | think
  | pictures
  | talk
deriving DecidableEq, Repr

/-- `PostCategory::as_str` from `domain/articles.rs`. -/
def PostCategory.as_str : PostCategory → String
  | .article => "article"
  | .note => "note"
  | .pictures => "pictures"
  | .talk => "talk"
  | .think => "think"

/-- `Article` from `domain/articles.rs`.  Timestamps are unix seconds.
Note the entity has no file-path field; the id is the only key. -/
structure Article where
  id : String
  title : String
  tags : List String
  category : PostCategory
  summary : Option String
  content : String
  status : String
  created_at : Int
  updated_at : Int
  deleted_at : Option Int
deriving DecidableEq, Repr

/-- `ArticleFrontMatter` from `domain/articles.rs`: the parsed metadata block
of a content file. -/
structure ArticleFrontMatter where
  id : String
  title : String
  tags : List String
  category : PostCategory
  summary : Option String
  status : String
deriving DecidableEq, Repr

/-! ## Change-set classifier (src/backend/src/infrastructure/github/webhook.rs) -/

/-- `FileChange` from `infrastructure/github/webhook.rs`. -/
structure FileChange where
  file_path : String
  status : String
  timestamp : Int
  row_url : Option String
deriving DecidableEq, Repr

/-- One commit of an octocrab push payload, restricted to the fields read by
`get_push_file_changes`: the three native change lists and the commit
timestamp. -/
structure PushCommit where
  added : List String
  removed : List String
  modified : List String
  timestamp : Int
deriving DecidableEq, Repr

/-- The part of an octocrab `WebhookEvent` that `get_push_file_changes`
inspects: whether both `self.kind == WebhookEventType::Push` holds and the
specific payload is a push payload, and in that case the commit list. -/
structure WebhookEvent where
  is_push : Bool
  commits : List PushCommit
deriving DecidableEq, Repr

/-- `WebhookHandler::get_push_file_changes` for `WebhookEvent`
(`infrastructure/github/webhook.rs`, lines 241-286): iterate every commit of
the push in order and, for each commit, append one `FileChange` per path of
its `added`, `removed` and `modified` lists, carrying that commit's
timestamp.  Returns `(added_files, removed_files, modified_files)`.
Non-push events yield three empty lists. -/
def get_push_file_changes (ev : WebhookEvent) :
    List FileChange × List FileChange × List FileChange :=
  if ev.is_push then
    ev.commits.foldl
      (fun acc c =>
        (acc.1 ++ c.added.map (fun f => ⟨f, "added", c.timestamp, none⟩),
         acc.2.1 ++ c.removed.map (fun f => ⟨f, "removed", c.timestamp, none⟩),
         acc.2.2 ++ c.modified.map (fun f => ⟨f, "modified", c.timestamp, none⟩)))
      ([], [], [])
  else ([], [], [])

/-! ## File-extension allow-list (src/backend/src/application/article_service.rs) -/

/-- Characters of a file name after its last dot, or `none` when the name
contains no dot.  Helper for the embedding of `std::path::Path::extension`. -/
def afterLastDot : List Char → Option (List Char)
  | [] => none
  | c :: cs =>
    match afterLastDot cs with
    | some r => some r
    | none => if c = '.' then some cs else none

/-- `std::path::Path::extension` on the file name: the portion after the last
dot, except that a name whose only dot is its leading character (a hidden
file such as `.gitignore`) has no extension. -/
def extensionOf (name : List Char) : Option (List Char) :=
  match name with
  | [] => none
  | c :: cs => if c = '.' then afterLastDot cs else afterLastDot (c :: cs)

/-- Split a character list at every `/`. -/
def splitSlash : List Char → List (List Char)
  | [] => [[]]
  | c :: cs =>
    if c = '/' then [] :: splitSlash cs
    else
      match splitSlash cs with
      | [] => [[c]]
      | g :: gs => (c :: g) :: gs

/-- The final component of a path (`std::path::Path::file_name`), modelled
for plain relative paths: the last nonempty `/`-separated component, with
`.` components skipped and `..` yielding no file name.  The service only
handles plain repository-relative content paths. -/
def fileNameOf (p : String) : Option (List Char) :=
  let comps := (splitSlash p.toList).filter
    (fun s => !(s == []) && !(s == ['.']))
  match comps.getLast? with
  | none => none
  | some s => if s == ['.', '.'] then none else some s

/-- `ArticleService::is_valid_file` (`application/article_service.rs`, lines
180-190): true exactly when the path's extension is in the allow-list
`["md", "mdx"]`; false when the extension cannot be determined. -/
def is_valid_file (file_path : String) : Bool :=
  let allowed_extensions := ["md", "mdx"]
  match fileNameOf file_path with
  | none => false
  | some name =>
    match extensionOf name with
    | none => false
    | some ext => allowed_extensions.contains (String.mk ext)

/-- The list-level content of `ArticleService::process_push_event`
(`application/article_service.rs`, lines 148-164): given the classifier's
three lists it hands `modified_files` to `process_modified_files` unfiltered,
then retains only the valid-extension entries of `added_files` and hands the
retained list together with the untouched `removed_files` to
`process_added_and_removed_event`.  The result triple is
`(modified passed, added passed, removed passed)`. -/
def process_push_event_lists
    (added_files removed_files modified_files : List FileChange) :
    List FileChange × List FileChange × List FileChange :=
  (modified_files,
   added_files.filter (fun f => is_valid_file f.file_path),
   removed_files)

/-! ## Reconciliation engine (src/backend/src/application/article_service.rs) -/

/-- `time::OffsetDateTime::from_unix_timestamp`: succeeds exactly for unix
seconds inside the representable year range -9999..=9999. -/
def from_unix_timestamp (ts : Int) : Except Unit Int :=
  if ts < -377705116800 ∨ 253402300799 < ts then .error () else .ok ts

/-- `from_unix_timestamp(ts).unwrap_or_else(|_| OffsetDateTime::now_utc())`,
with the ambient clock value passed in as `now`. -/
def timestampOrNow (now ts : Int) : Int :=
  match from_unix_timestamp ts with
  | .ok t => t
  | .error _ => now

/-- `HashMap::contains_key` on the association-list model. -/
def containsKey (m : List (String × String)) (k : String) : Bool :=
  m.any (fun p => p.1 == k)

/-- `HashSet::contains` on the list model of a string set. -/
def containsId (l : List String) (x : String) : Bool :=
  l.any (fun y => y == x)

/-- `HashMap::insert` on the association-list model: replace the value when
the key is present, append otherwise. -/
def insertMap (m : List (String × String)) (k v : String) :
    List (String × String) :=
  if containsKey m k then m.map (fun p => if p.1 == k then (k, v) else p)
  else m ++ [(k, v)]

/-- The `db_id_to_path` map of `process_added_and_removed_event`: fold the
`(id, path)` metadata rows with `db_id_to_path.insert(id, path)`. -/
def buildIdToPath (metadata : List (String × String)) :
    List (String × String) :=
  metadata.foldl (fun m r => insertMap m r.1 r.2) []

/-- The `db_path_to_id` map of `process_added_and_removed_event`: fold the
`(id, path)` metadata rows with `db_path_to_id.insert(path, id)`.  The source
builds this map and never reads it again. -/
def buildPathToId (metadata : List (String × String)) :
    List (String × String) :=
  metadata.foldl (fun m r => insertMap m r.2 r.1) []

/-- The `Article` literal of the `update.push` branch
(`article_service.rs`, lines 227-237): `created_at` is the current clock,
`updated_at` the commit timestamp.  The source literal omits `deleted_at`
(the struct has the field; we take the field's absent value `none`). -/
def mkUpdatedArticle (info : ArticleFrontMatter) (body : String)
    (now ts : Int) : Article :=
  { id := info.id
    title := info.title
    category := info.category
    status := info.status
    tags := info.tags
    summary := info.summary
    content := body
    created_at := now
    updated_at := ts
    deleted_at := none }

/-- The `Article` literal of the `add.push` branch (`article_service.rs`,
lines 241-251): creation and update timestamps both equal the commit
timestamp. -/
def mkNewArticle (info : ArticleFrontMatter) (body : String) (ts : Int) :
    Article :=
  { id := info.id
    title := info.title
    category := info.category
    status := info.status
    tags := info.tags
    summary := info.summary
    content := body
    created_at := ts
    updated_at := ts
    deleted_at := none }

/-- Accumulator of the `for (timestamp, content) in added_contents` loop:
the `add` and `update` vectors and the `updated_article_uuids` set. -/
structure ReconcileAcc where
  add : List Article
  update : List Article
  updatedIds : List String
deriving DecidableEq, Repr

/-- The loop body of `process_added_and_removed_event` over the fetched
contents of the added files (`article_service.rs`, lines 220-254):
a failed fetch is skipped (`if let Ok(content)`);
`extract_article(&content)?` propagates a front-matter parse failure,
aborting the whole call; otherwise the file becomes an `update` entry when
`db_id_to_path` already contains its front-matter id (recording the id in
`updated_article_uuids`), and an `add` entry otherwise. -/
def addedLoop (extract : String → Except Unit (ArticleFrontMatter × String))
    (dbIdToPath : List (String × String)) (now : Int) :
    List (Int × Except Unit String) → ReconcileAcc →
    Except Unit ReconcileAcc
  | [], acc => .ok acc
  | (_, .error _) :: rest, acc => addedLoop extract dbIdToPath now rest acc
  | (ts, .ok content) :: rest, acc =>
    match extract content with
    | .error e => .error e
    | .ok (info, body) =>
      let ts' := timestampOrNow now ts
      if containsKey dbIdToPath info.id then
        addedLoop extract dbIdToPath now rest
          { add := acc.add
            update := acc.update ++ [mkUpdatedArticle info body now ts']
            updatedIds := acc.updatedIds ++ [info.id] }
      else
        addedLoop extract dbIdToPath now rest
          { add := acc.add ++ [mkNewArticle info body ts']
            update := acc.update
            updatedIds := acc.updatedIds }

/-- Whether one fetched entry of the added-contents list would contribute the
front-matter id `x`: the fetch succeeded and `extract` parses the content to
front matter whose id is `x`.  Used to state how many added files of a push
carry a given id. -/
def yieldsId (extract : String → Except Unit (ArticleFrontMatter × String))
    (x : String) : Int × Except Unit String → Bool
  | (_, .ok c) =>
    match extract c with
    | .ok (info, _) => info.id == x
    | .error _ => false
  | (_, .error _) => false

/-- `ArticleService::process_added_and_removed_event`
(`application/article_service.rs`, lines 193-266), as the pure computation of
the three reconciliation outputs: the articles passed to
`process_added_files` (`add`), the articles collected in the `update`
vector, and the id list passed to `process_removed_files` (`remove`).

Parameters standing for external collaborators:
* `extract` — `self.extract_article`, i.e. the `gray_matter` parse of a raw
  document into front matter and body (lines 359-367);
* `fetch_files` — `self.github_client.fetch_files(owner, repo, added)`,
  which is called but not defined anywhere under `src/`; per the call site it
  yields one `(commit timestamp, Result<content>)` pair per fetched file;
* `metadata` — the `(id, path)` rows of `self.db_repo.get_all_metadata()`
  (an unimplemented `todo!()` stub in `SqlxArticleRepository`);
* `now` — the value of `OffsetDateTime::now_utc()`.

Faithful to the source: the `removed` argument is received and never read,
`db_path_to_id` is built and never read, and the `remove` list is every
persisted id that is not in `updated_article_uuids` — the id of every
database row the push's added files did not update. -/
def process_added_and_removed_event
    (extract : String → Except Unit (ArticleFrontMatter × String))
    (fetch_files : List FileChange → List (Int × Except Unit String))
    (metadata : List (String × String))
    (added removed : List FileChange) (now : Int) :
    Except Unit (List Article × List Article × List String) :=
  let dbIdToPath := buildIdToPath metadata
  let _dbPathToId := buildPathToId metadata
  let _removed := removed
  let added_contents := fetch_files added
  match addedLoop extract dbIdToPath now added_contents ⟨[], [], []⟩ with
  | .error e => .error e
  | .ok acc =>
    let remove :=
      (dbIdToPath.filter (fun p => !(containsId acc.updatedIds p.1))).map
        (fun p => p.1)
    .ok (acc.add, acc.update, remove)

/-! ## Signature verifier (src/backend/src/infrastructure/github/signature.rs) -/

/-- `WebHooksError` from `errors.rs`. -/
inductive WebHooksError where
  | VerifySignatureFailed
  | InvalidHeader (name : String)
  | MissingHeader (name : String)
  | MissingRepositoryName
  | GithubWebhookSecretMissing
  | UnsupportedWebhookEvent
deriving DecidableEq, Repr

/-- The HTTP status code that `impl IntoResponse for SomeError`
(`errors.rs`, lines 246-354) assigns to each webhook error variant. -/
def webhooksStatusCode : WebHooksError → Nat
  | .VerifySignatureFailed => 401
  | .InvalidHeader _ => 400
  | .MissingHeader _ => 400
  | .MissingRepositoryName => 422
  | .GithubWebhookSecretMissing => 500
  | .UnsupportedWebhookEvent => 400

/-- A header map: name to value, where a `none` value stands for header bytes
that are not valid visible-ASCII text (`HeaderValue::to_str` failing).
`get` returns the first entry of the given name. -/
def headerGet (headers : List (String × Option String)) (name : String) :
    Option String :=
  match headers.find? (fun h => h.1 == name) with
  | none => none
  | some h => h.2

/-- Numeric value of one hex digit, accepting both cases
(as `hex::decode` does). -/
def hexDigit (c : Char) : Option Nat :=
  if '0' ≤ c ∧ c ≤ '9' then some (c.toNat - '0'.toNat)
  else if 'a' ≤ c ∧ c ≤ 'f' then some (c.toNat - 'a'.toNat + 10)
  else if 'A' ≤ c ∧ c ≤ 'F' then some (c.toNat - 'A'.toNat + 10)
  else none

/-- `hex::decode` on a character list: requires even length and hex digits
throughout, producing one byte per digit pair. -/
def hexDecodeChars : List Char → Option (List Nat)
  | [] => some []
  | [_] => none
  | c1 :: c2 :: rest =>
    match hexDigit c1, hexDigit c2, hexDecodeChars rest with
    | some hi, some lo, some bs => some ((16 * hi + lo) :: bs)
    | _, _, _ => none

/-- `hex::decode` on a string. -/
def hexDecode (s : String) : Option (List Nat) :=
  hexDecodeChars s.toList

/-- `signature.strip_prefix("sha256=")`: the remainder of the header value
after the literal algorithm tag, or `none` when the value does not start
with it. -/
def stripSha256Tag (s : String) : Option String :=
  match s.toList with
  | 's' :: 'h' :: 'a' :: '2' :: '5' :: '6' :: '=' :: rest =>
    some (String.mk rest)
  | _ => none

/-- `verify_signature` (`infrastructure/github/signature.rs`, lines 76-125).
`hmac` abstracts the external `Hmac<Sha256>` computation: given the secret
key and the payload bytes it returns the digest bytes
(`HmacSha256::new_from_slice` never fails for an HMAC key, so the
`new_from_slice` error branch of the source is unreachable).  The checks, in
source order: the `X-Hub-Signature-256` header must be present and readable
as text, its value must start with `"sha256="`, the remainder must decode as
hex, and `mac.verify_slice` must find the decoded bytes equal to the computed
digest.  Every failure returns `WebHooksError::VerifySignatureFailed`. -/
def verify_signature (hmac : String → List Nat → List Nat)
    (payload_bytes : List Nat) (headers : List (String × Option String))
    (secret : String) : Except WebHooksError String :=
  match headerGet headers "X-Hub-Signature-256" with
  | none => .error .VerifySignatureFailed
  | some signature =>
    match stripSha256Tag signature with
    | none => .error .VerifySignatureFailed
    | some signature_hex =>
      match hexDecode signature_hex with
      | none => .error .VerifySignatureFailed
      | some signature_bytes =>
        if hmac secret payload_bytes = signature_bytes then .ok "Ok"
        else .error .VerifySignatureFailed

/-! ## Webhook HTTP handler (src/backend/src/interfaces/http/handlers/webhook.rs) -/

/-- The error type of the `github_webhook` handler: a webhook error (from
signature verification or the missing event header) or a failure of the
external octocrab payload parser `WebhookEvent::try_from_header_and_body`. -/
inductive HandlerError where
  | webhooks (e : WebHooksError)
  | eventParse
deriving DecidableEq, Repr

/-- `github_webhook` (`interfaces/http/handlers/webhook.rs`, lines 87-124).
Step order as in the source: verify the signature (propagating its error);
read the `X-GitHub-Event` header, failing with `MissingHeader` when absent;
parse the payload with the external parser `parse_event` (propagating its
failure); then run reconciliation — whose outcome `process_outcome`
(the result of `process_github_webhook_event`) is only logged — and answer
with the fixed body `"Webhook received"`. -/
def github_webhook (hmac : String → List Nat → List Nat) (secret : String)
    (headers : List (String × Option String)) (body : List Nat)
    (parse_event : String → List Nat → Except Unit Unit)
    (process_outcome : Except Unit Unit) : Except HandlerError String :=
  match verify_signature hmac body headers secret with
  | .error e => .error (.webhooks e)
  | .ok _ =>
    match headerGet headers "X-GitHub-Event" with
    | none => .error (.webhooks (.MissingHeader "X-GitHub-Event"))
    | some event_type =>
      match parse_event event_type body with
      | .error _ => .error .eventParse
      | .ok _ =>
        -- `if let Err(err) = ... { tracing::error!(...) }`: the outcome is
        -- examined only for logging and never influences the response.
        match process_outcome with
        | .ok _ => .ok "Webhook received"
        | .error _ => .ok "Webhook received"

/-! ## ID availability check (src/backend/src/application/article_service.rs) -/

/-- `ArticleService::is_valid_id` (`application/article_service.rs`, lines
413-419), as a function of the result of
`self.db_repo.find_optional_by_id(id)`: an article found means the id is
taken (`false`), nothing found means available (`true`), and a lookup error
also answers available (`true`). -/
def is_valid_id {ε : Type} (lookup : Except ε (Option Article)) : Bool :=
  match lookup with
  | .ok (some _) => false
  | .ok none => true
  | .error _ => true

/-! ## Transactional persistence guard (spec §4.6)

`SqlxArticleRepository::save`, `update_by_path` and `delete_by_path`
(`infrastructure/db/sqlx_repo.rs`) are unimplemented `todo!()` stubs; only
the `ArticleRepository` trait declarations and their callers exist under
`src/`.  The unit of work below is therefore modelled from the spec. -/

/-- Modelled from the spec: upsert semantics of the Transactional Persistence
Guard (§4.6) — insert-or-replace keyed by id, updating all mutable fields,
with the creation timestamp preserved on conflict.  (The code's `save` is a
`todo!()` stub.) -/
def storeUpsert (s : List Article) (a : Article) : List Article :=
  if s.any (fun b => b.id == a.id) then
    s.map (fun b => if b.id == a.id then { a with created_at := b.created_at }
                    else b)
  else s ++ [a]

/-- Modelled from the spec: delete semantics of the Transactional Persistence
Guard (§4.6) — bulk removal by id set; deleting a non-existent id is a
no-op.  (The code's delete path is a `todo!()` stub.) -/
def storeDelete (s : List Article) (ids : List String) : List Article :=
  s.filter (fun b => !(containsId ids b.id))

/-- Modelled from the spec: the scoped unit of work of §4.6 / §3
(TransactionGuard).  `base` is the persisted store the guard was begun on —
the state every read outside the guard observes until commit — and the
staged batches are accumulated without touching `base`. -/
structure UnitOfWork where
  base : List Article
  stagedUpserts : List Article
  stagedDeletes : List String
deriving DecidableEq, Repr

/-- Modelled from the spec: `begin()` acquires a unit of work with nothing
staged. -/
def txBegin (s : List Article) : UnitOfWork := ⟨s, [], []⟩

/-- Modelled from the spec: `upsertBatch(articles)` stages upserts. -/
def txUpsertBatch (g : UnitOfWork) (batch : List Article) : UnitOfWork :=
  { g with stagedUpserts := g.stagedUpserts ++ batch }

/-- Modelled from the spec: `deleteBatch(ids)` stages deletions. -/
def txDeleteBatch (g : UnitOfWork) (ids : List String) : UnitOfWork :=
  { g with stagedDeletes := g.stagedDeletes ++ ids }

/-- Modelled from the spec: `commit()` makes all staged changes visible
atomically — all staged upserts applied, then all staged deletes. -/
def txCommit (g : UnitOfWork) : List Article :=
  storeDelete (g.stagedUpserts.foldl storeUpsert g.base) g.stagedDeletes

/-- One step of a staging script against an open unit of work: stage an
upsert batch, stage a delete batch, or fail (an error raised partway through
staging, after which the guard is dropped without commit). -/
inductive StageCmd where
  | up (batch : List Article)
  | del (ids : List String)
  | crash
deriving DecidableEq, Repr

/-- Modelled from the spec: staging loop of one unit of work.  The script's
batches are staged in order; hitting `crash` drops the guard, discarding all
staged changes and answering with the store the guard was begun on; a script
that completes is committed (atomically when `commit_ok`, while a failed
commit — `commit_ok = false` — also leaves the store unchanged). -/
def runTxGo (commit_ok : Bool) : UnitOfWork → List StageCmd → List Article
  | g, [] => if commit_ok then txCommit g else g.base
  | g, .up batch :: rest => runTxGo commit_ok (txUpsertBatch g batch) rest
  | g, .del ids :: rest => runTxGo commit_ok (txDeleteBatch g ids) rest
  | g, .crash :: _ => g.base

/-- Modelled from the spec: run one unit of work over a store, §4.6. -/
def runTxScript (s : List Article) (cmds : List StageCmd)
    (commit_ok : Bool) : List Article :=
  runTxGo commit_ok (txBegin s) cmds

/-! ## Concrete fixtures

Closed sample values used by witnesses and counterexamples: a two-document
front-matter extractor, a constant MAC, and sample articles.  These stand in
for the external collaborators when a theorem is evaluated at one input. -/

/-- Sample front matter with the given id. -/
def demoFM (i : String) : ArticleFrontMatter :=
  ⟨i, "Title " ++ i, ["tag"], .article, none, "published"⟩

/-- Sample extractor: recognises the documents `"doc-x"` and `"doc-y"`
(front-matter ids `"x"` and `"y"`), and fails on everything else. -/
def demoExtract : String → Except Unit (ArticleFrontMatter × String) :=
  fun s =>
    if s = "doc-x" then .ok (demoFM "x", "body-x")
    else if s = "doc-y" then .ok (demoFM "y", "body-y")
    else .error ()

/-- Sample MAC: a constant one-byte digest. -/
def demoHmac : String → List Nat → List Nat := fun _ _ => [0]

/-- Sample payload parser that accepts everything. -/
def demoParse : String → List Nat → Except Unit Unit := fun _ _ => .ok ()

/-- Sample article with the given id. -/
def demoArticle (i : String) : Article :=
  ⟨i, "Title " ++ i, [], .article, none, "content", "published", 0, 0, none⟩

/-- Sample headers carrying a signature that `demoHmac` accepts and a push
event header. -/
def demoHeadersOk : List (String × Option String) :=
  [("X-Hub-Signature-256", some "sha256=00"), ("X-GitHub-Event", some "push")]

/-- Sample headers with a valid signature but no event header. -/
def demoHeadersNoEvent : List (String × Option String) :=
  [("X-Hub-Signature-256", some "sha256=00")]

/-! ## Helper lemmas -/

/-- `containsId` distributes over append. -/
theorem containsId_append (l l' : List String) (x : String) :
    containsId (l ++ l') x = (containsId l x || containsId l' x) := by
  simp [containsId, List.any_append]

/-- An element is found in a singleton of itself. -/
theorem containsId_singleton_self (x : String) : containsId [x] x = true := by
  simp [containsId]

/-- A key occurring in the map makes `containsKey` true. -/
theorem containsKey_of_mem (m : List (String × String))
    (pr : String × String) (hm : pr ∈ m) : containsKey m pr.1 = true := by
  simp only [containsKey, List.any_eq_true]
  exact ⟨pr, hm, by simp⟩

/-- Staging never mutates the store a unit of work was begun on: a script
that crashes (or whose commit fails) answers with that original store. -/
theorem runTxGo_of_crash (commit_ok : Bool) :
    ∀ (cmds : List StageCmd) (g : UnitOfWork),
      (StageCmd.crash ∈ cmds ∨ commit_ok = false) →
      runTxGo commit_ok g cmds = g.base := by
  intro cmds
  induction cmds with
  | nil =>
    intro g h
    rcases h with h | h
    · exact absurd h (List.not_mem_nil _)
    · simp [runTxGo, h]
  | cons c rest ih =>
    intro g h
    cases c with
    | crash => rfl
    | up batch =>
      refine ih (txUpsertBatch g batch) ?_
      rcases h with h | h
      · rcases List.mem_cons.mp h with h2 | h2
        · exact StageCmd.noConfusion h2
        · exact Or.inl h2
      · exact Or.inr h
    | del ids =>
      refine ih (txDeleteBatch g ids) ?_
      rcases h with h | h
      · rcases List.mem_cons.mp h with h2 | h2
        · exact StageCmd.noConfusion h2
        · exact Or.inl h2
      · exact Or.inr h

/-- Folding the classifier's per-commit step from any accumulator appends
the three per-commit contributions. -/
theorem classifierFold_eq (cs : List PushCommit) :
    ∀ a r m : List FileChange,
      cs.foldl
        (fun acc c =>
          (acc.1 ++ c.added.map (fun f => ⟨f, "added", c.timestamp, none⟩),
           acc.2.1 ++ c.removed.map
             (fun f => ⟨f, "removed", c.timestamp, none⟩),
           acc.2.2 ++ c.modified.map
             (fun f => ⟨f, "modified", c.timestamp, none⟩)))
        (a, r, m)
      = (a ++ cs.flatMap
            (fun c => c.added.map (fun f => ⟨f, "added", c.timestamp, none⟩)),
         r ++ cs.flatMap
            (fun c => c.removed.map
              (fun f => ⟨f, "removed", c.timestamp, none⟩)),
         m ++ cs.flatMap
            (fun c => c.modified.map
              (fun f => ⟨f, "modified", c.timestamp, none⟩))) := by
  induction cs with
  | nil => intro a r m; simp
  | cons c rest ih =>
    intro a r m
    simp only [List.foldl_cons, List.flatMap_cons]
    rw [ih]
    simp [List.append_assoc]

/-- Filtering the records built from one commit's path list for one path and
reading their timestamps yields one timestamp per occurrence of the path. -/
theorem filter_map_mk (p st : String) (t : Int) (l : List String) :
    ((l.map (fun f => FileChange.mk f st t none)).filter
        (fun fc => fc.file_path == p)).map (fun fc => fc.timestamp)
      = (l.filter (fun f => f == p)).map (fun _ => t) := by
  induction l with
  | nil => rfl
  | cons f rest ih =>
    by_cases hf : (f == p) = true
    · simp [List.filter_cons, hf, ih]
    · simp [List.filter_cons, hf, ih]

/-- The timestamps of the records kept for one path across all commits are
exactly the timestamps of the commits listing that path, one per
occurrence, in commit order. -/
theorem filter_bind_timestamps (p st : String)
    (pick : PushCommit → List String) (cs : List PushCommit) :
    ((cs.flatMap (fun c => (pick c).map
        (fun f => FileChange.mk f st c.timestamp none))).filter
          (fun fc => fc.file_path == p)).map (fun fc => fc.timestamp)
      = cs.flatMap (fun c => ((pick c).filter (fun f => f == p)).map
          (fun _ => c.timestamp)) := by
  induction cs with
  | nil => rfl
  | cons c rest ih =>
    simp only [List.flatMap_cons, List.filter_append, List.map_append]
    rw [filter_map_mk, ih]

/-- Invariant of the added-files loop: every new-insert entry's id is absent
from the persisted map, and every update entry's id is recorded in the
`updatedIds` set. -/
theorem addedLoop_disjoint_inv
    (extract : String → Except Unit (ArticleFrontMatter × String))
    (db : List (String × String)) (now : Int) :
    ∀ (contents : List (Int × Except Unit String)) (acc acc' : ReconcileAcc),
      addedLoop extract db now contents acc = .ok acc' →
      (∀ a ∈ acc.add, containsKey db a.id = false) →
      (∀ a ∈ acc.update, containsId acc.updatedIds a.id = true) →
      (∀ a ∈ acc'.add, containsKey db a.id = false)
      ∧ (∀ a ∈ acc'.update, containsId acc'.updatedIds a.id = true) := by
  intro contents
  induction contents with
  | nil =>
    intro acc acc' h ha hu
    simp only [addedLoop] at h
    obtain rfl := Except.ok.inj h
    exact ⟨ha, hu⟩
  | cons e rest ih =>
    intro acc acc' h ha hu
    obtain ⟨ts, content⟩ := e
    cases content with
    | error err => exact ih acc acc' h ha hu
    | ok content =>
      simp only [addedLoop] at h
      cases hex : extract content with
      | error e2 =>
        simp only [hex] at h
        exact Except.noConfusion h
      | ok pr =>
        obtain ⟨info, body⟩ := pr
        simp only [hex] at h
        cases hc : containsKey db info.id with
        | true =>
          simp only [hc, if_true] at h
          refine ih _ acc' h (fun a hmem => ha a hmem) ?_
          intro a hmem
          rcases List.mem_append.mp hmem with h1 | h1
          · rw [containsId_append]
            rw [hu a h1]
            rfl
          · rcases List.mem_singleton.mp h1 with rfl
            rw [containsId_append]
            rw [show (mkUpdatedArticle info body now
                (timestampOrNow now ts)).id = info.id from rfl]
            rw [containsId_singleton_self]
            exact Bool.or_true _
        | false =>
          simp only [hc, if_false, Bool.false_eq_true] at h
          refine ih _ acc' h ?_ (fun a hmem => hu a hmem)
          intro a hmem
          rcases List.mem_append.mp hmem with h1 | h1
          · exact ha a h1
          · rcases List.mem_singleton.mp h1 with rfl
            exact hc

/-- The id of an update entry is the front-matter id. -/
theorem mkUpdatedArticle_id (info : ArticleFrontMatter) (body : String)
    (now ts : Int) : (mkUpdatedArticle info body now ts).id = info.id := rfl

/-- The id of a new-insert entry is the front-matter id. -/
theorem mkNewArticle_id (info : ArticleFrontMatter) (body : String)
    (ts : Int) : (mkNewArticle info body ts).id = info.id := rfl

/-- Counting lemma for the added-files loop when the probed id `x` is
persisted: every successfully fetched and parsed entry carrying front-matter
id `x` contributes exactly one update entry and no insert entry, and `x`
enters the `updatedIds` set exactly when at least one such entry exists. -/
theorem addedLoop_count
    (extract : String → Except Unit (ArticleFrontMatter × String))
    (db : List (String × String)) (now : Int) (x : String)
    (hx : containsKey db x = true) :
    ∀ (contents : List (Int × Except Unit String)) (acc acc' : ReconcileAcc),
      addedLoop extract db now contents acc = .ok acc' →
      ((acc'.update.filter (fun a => a.id == x)).length
         = (acc.update.filter (fun a => a.id == x)).length
           + (contents.filter (yieldsId extract x)).length)
      ∧ ((acc'.add.filter (fun a => a.id == x)).length
         = (acc.add.filter (fun a => a.id == x)).length)
      ∧ (containsId acc'.updatedIds x
         = (containsId acc.updatedIds x
            || contents.any (yieldsId extract x))) := by
  intro contents
  induction contents with
  | nil =>
    intro acc acc' h
    simp only [addedLoop] at h
    obtain rfl := Except.ok.inj h
    simp
  | cons e rest ih =>
    intro acc acc' h
    obtain ⟨ts, content⟩ := e
    cases content with
    | error err =>
      have hres := ih acc acc' h
      have hy : yieldsId extract x (ts, Except.error err) = false := rfl
      refine ⟨?_, hres.2.1, ?_⟩
      · rw [hres.1]
        simp [List.filter_cons, hy]
      · rw [hres.2.2]
        simp [List.any_cons, hy]
    | ok content =>
      simp only [addedLoop] at h
      cases hex : extract content with
      | error e2 =>
        simp only [hex] at h
        exact Except.noConfusion h
      | ok pr =>
        obtain ⟨info, body⟩ := pr
        simp only [hex] at h
        have hy : yieldsId extract x (ts, Except.ok content)
            = (info.id == x) := by
          simp [yieldsId, hex]
        by_cases hid : info.id = x
        · subst hid
          simp only [hx, if_true] at h
          have hres := ih _ acc' h
          refine ⟨?_, hres.2.1, ?_⟩
          · have h1 := hres.1
            simp only [List.filter_append, List.length_append,
              List.filter_cons, hy, mkUpdatedArticle_id, beq_self_eq_true,
              if_true, List.filter_nil, List.length_cons,
              List.length_nil] at h1 ⊢
            omega
          · have h3 := hres.2.2
            rw [h3, containsId_append, containsId_singleton_self]
            simp [List.any_cons, hy]
        · have hidb : (info.id == x) = false := by
            simpa using hid
          cases hc : containsKey db info.id with
          | true =>
            simp only [hc, if_true] at h
            have hres := ih _ acc' h
            refine ⟨?_, hres.2.1, ?_⟩
            · have h1 := hres.1
              simp only [List.filter_append, List.length_append,
                List.filter_cons, hy, mkUpdatedArticle_id, hidb,
                Bool.false_eq_true, if_false, List.filter_nil,
                List.length_nil] at h1 ⊢
              omega
            · have h3 := hres.2.2
              rw [h3, containsId_append]
              have hsing : containsId [info.id] x = false := by
                simp [containsId, hidb]
              rw [hsing]
              simp [List.any_cons, hy, hidb]
          | false =>
            simp only [hc, Bool.false_eq_true, if_false] at h
            have hres := ih _ acc' h
            refine ⟨?_, ?_, ?_⟩
            · rw [hres.1]
              simp [List.filter_cons, hy, hidb]
            · have h2 := hres.2.1
              simp only [List.filter_append, List.length_append,
                List.filter_cons, mkNewArticle_id, hidb,
                Bool.false_eq_true, if_false, List.filter_nil,
                List.length_nil] at h2 ⊢
              omega
            · rw [hres.2.2]
              simp [List.any_cons, hy, hidb]

/-! ## Claim theorems -/

/-- C9 counterexample: a push in which the same path `a.md` is added in two
commits (timestamps 1 and 2) does not produce a single "added" record for
that path — the classifier emits two records. -/
theorem duplicate_path_not_single_record :
    ¬ ((((get_push_file_changes
          ⟨true, [⟨["a.md"], [], [], 1⟩, ⟨["a.md"], [], [], 2⟩]⟩).1.filter
            (fun fc => fc.file_path == "a.md")).length) = 1) := by decide

/-- C9 (amended): for every push and every path, and in each of the three
classifications, the classifier keeps one record per occurrence of the path
in a commit's corresponding change list, in commit order, each carrying its
own commit's timestamp — later commits append records rather than
overwriting earlier ones. -/
theorem classifier_record_per_occurrence (ev : WebhookEvent) (p : String) :
    (((get_push_file_changes ev).1.filter
        (fun fc => fc.file_path == p)).map (fun fc => fc.timestamp)
      = if ev.is_push then
          ev.commits.flatMap (fun c => (c.added.filter (fun f => f == p)).map
            (fun _ => c.timestamp))
        else [])
    ∧ (((get_push_file_changes ev).2.1.filter
        (fun fc => fc.file_path == p)).map (fun fc => fc.timestamp)
      = if ev.is_push then
          ev.commits.flatMap (fun c => (c.removed.filter (fun f => f == p)).map
            (fun _ => c.timestamp))
        else [])
    ∧ (((get_push_file_changes ev).2.2.filter
        (fun fc => fc.file_path == p)).map (fun fc => fc.timestamp)
      = if ev.is_push then
          ev.commits.flatMap (fun c => (c.modified.filter (fun f => f == p)).map
            (fun _ => c.timestamp))
        else []) := by
  unfold get_push_file_changes
  by_cases hp : ev.is_push
  · simp only [hp, if_true]
    rw [classifierFold_eq]
    refine ⟨?_, ?_, ?_⟩ <;>
      simp only [List.nil_append] <;> rw [filter_bind_timestamps]
  · simp [hp]

/-- C1: for every push, the ids of the articles placed in the upsert sets —
the new inserts passed to `process_added_files` plus the collected updates —
are disjoint from the id list passed to `process_removed_files`: no article
id occurs on both sides. -/
theorem upsert_delete_disjoint
    (extract : String → Except Unit (ArticleFrontMatter × String))
    (fetch_files : List FileChange → List (Int × Except Unit String))
    (metadata : List (String × String)) (added removed : List FileChange)
    (now : Int) (add update : List Article) (remove : List String)
    (h : process_added_and_removed_event extract fetch_files metadata added
          removed now = .ok (add, update, remove)) :
    ∀ a : Article, a ∈ add ∨ a ∈ update → a.id ∉ remove := by
  intro a hmem hrem
  simp only [process_added_and_removed_event] at h
  cases hl : addedLoop extract (buildIdToPath metadata) now
      (fetch_files added) ⟨[], [], []⟩ with
  | error e =>
    rw [hl] at h
    exact Except.noConfusion h
  | ok acc =>
    rw [hl] at h
    obtain ⟨h1, h2, h3⟩ :
        acc.add = add ∧ acc.update = update
        ∧ ((buildIdToPath metadata).filter
            (fun p => !(containsId acc.updatedIds p.1))).map
              (fun p => p.1) = remove := by
      simpa using h
    have hinv := addedLoop_disjoint_inv extract (buildIdToPath metadata) now
      (fetch_files added) ⟨[], [], []⟩ acc hl
      (by intro a ha; exact absurd ha (List.not_mem_nil a))
      (by intro a ha; exact absurd ha (List.not_mem_nil a))
    rw [← h3] at hrem
    rcases List.mem_map.mp hrem with ⟨pr, hpr, hfst⟩
    rcases List.mem_filter.mp hpr with ⟨hprdb, hcond⟩
    have hnotin : containsId acc.updatedIds a.id = false := by
      rw [← hfst]
      simpa using hcond
    have hindb : containsKey (buildIdToPath metadata) a.id = true := by
      rw [← hfst]
      exact containsKey_of_mem _ pr hprdb
    rcases hmem with hmem | hmem
    · have := hinv.1 a (h1 ▸ hmem)
      rw [this] at hindb
      exact Bool.noConfusion hindb
    · have := hinv.2 a (h2 ▸ hmem)
      rw [this] at hnotin
      exact Bool.noConfusion hnotin

/-- C1 witness: a concrete push against a store holding ids `x` and `z`,
whose single added file updates `x`; the updated article's id is not in the
delete set (which holds `z`). -/
theorem upsert_delete_disjoint_witness :
    (mkUpdatedArticle (demoFM "x") "body-x" 0 1).id ∉ (["z"] : List String) :=
  upsert_delete_disjoint demoExtract (fun _ => [(1, .ok "doc-x")])
    [("x", "px"), ("z", "pz")] [] [] 0 []
    [mkUpdatedArticle (demoFM "x") "body-x" 0 1] ["z"] rfl
    (mkUpdatedArticle (demoFM "x") "body-x" 0 1)
    (Or.inr (List.mem_singleton.mpr rfl))

/-- C2: the rename case — when the push's added files carry exactly one
successfully fetched and parsed file whose front-matter id `x` is already
persisted (as in a rename, where the removed old path held `x`), the
reconciliation collects exactly one upsert (update entry) for `x`, places no
new insert for `x`, and does not place `x` in the delete set: never a delete
followed by an insert. -/
theorem rename_single_upsert
    (extract : String → Except Unit (ArticleFrontMatter × String))
    (fetch_files : List FileChange → List (Int × Except Unit String))
    (metadata : List (String × String)) (added removed : List FileChange)
    (now : Int) (x : String) (add update : List Article)
    (remove : List String)
    (hx : containsKey (buildIdToPath metadata) x = true)
    (hone : ((fetch_files added).filter (yieldsId extract x)).length = 1)
    (h : process_added_and_removed_event extract fetch_files metadata added
          removed now = .ok (add, update, remove)) :
    (update.filter (fun a => a.id == x)).length = 1
    ∧ add.filter (fun a => a.id == x) = []
    ∧ x ∉ remove := by
  simp only [process_added_and_removed_event] at h
  cases hl : addedLoop extract (buildIdToPath metadata) now
      (fetch_files added) ⟨[], [], []⟩ with
  | error e =>
    rw [hl] at h
    exact Except.noConfusion h
  | ok acc =>
    rw [hl] at h
    obtain ⟨h1, h2, h3⟩ :
        acc.add = add ∧ acc.update = update
        ∧ ((buildIdToPath metadata).filter
            (fun p => !(containsId acc.updatedIds p.1))).map
              (fun p => p.1) = remove := by
      simpa using h
    have hcnt := addedLoop_count extract (buildIdToPath metadata) now x hx
      (fetch_files added) ⟨[], [], []⟩ acc hl
    have hupd : (update.filter (fun a => a.id == x)).length = 1 := by
      rw [← h2, hcnt.1, hone]
      rfl
    have hadd : add.filter (fun a => a.id == x) = [] := by
      rw [← h1]
      have hz := hcnt.2.1
      simp only [List.filter_nil, List.length_nil] at hz
      rwa [List.length_eq_zero] at hz
    have hany : (fetch_files added).any (yieldsId extract x) = true := by
      rcases List.length_eq_one.mp hone with ⟨e, he⟩
      have hmem : e ∈ (fetch_files added).filter (yieldsId extract x) := by
        rw [he]
        exact List.mem_singleton_self e
      rcases List.mem_filter.mp hmem with ⟨hm, hp⟩
      exact List.any_eq_true.mpr ⟨e, hm, hp⟩
    have hcont : containsId acc.updatedIds x = true := by
      rw [hcnt.2.2, hany]
      exact Bool.or_true _
    refine ⟨hupd, hadd, ?_⟩
    intro hrem
    rw [← h3] at hrem
    rcases List.mem_map.mp hrem with ⟨pr, hpr, hfst⟩
    rcases List.mem_filter.mp hpr with ⟨_, hcond⟩
    rw [hfst, hcont] at hcond
    simp at hcond

/-- C2 witness: a store holding id `x` at `posts/b-old.md`, a push adding
`posts/b-new.md` (front-matter id `x`) and removing `posts/b-old.md`:
exactly one update entry for `x`, no insert for `x`, empty delete set. -/
theorem rename_single_upsert_witness :
    (([mkUpdatedArticle (demoFM "x") "body-x" 0 5] : List Article).filter
        (fun a => a.id == "x")).length = 1
    ∧ ([] : List Article).filter (fun a => a.id == "x") = []
    ∧ "x" ∉ ([] : List String) :=
  rename_single_upsert demoExtract (fun _ => [(5, .ok "doc-x")])
    [("x", "posts/b-old.md")] [⟨"posts/b-new.md", "added", 5, none⟩]
    [⟨"posts/b-old.md", "removed", 5, none⟩] 0 "x"
    [] [mkUpdatedArticle (demoFM "x") "body-x" 0 5] [] rfl rfl rfl

/-- C10: `is_valid_id` answers false exactly when the repository lookup
completed successfully and found an article with that id; a successful
lookup finding nothing answers true, and a failed lookup also answers true
(fail-open), so a storage error can never report an id as taken. -/
theorem is_valid_id_spec (ε : Type) (e : ε) (a : Article)
    (r : Except ε (Option Article)) :
    is_valid_id (Except.ok (some a) : Except ε (Option Article)) = false
    ∧ is_valid_id (Except.ok none : Except ε (Option Article)) = true
    ∧ is_valid_id (Except.error e : Except ε (Option Article)) = true
    ∧ (is_valid_id r = false ↔ ∃ b, r = .ok (some b)) := by
  refine ⟨rfl, rfl, rfl, ?_⟩
  cases r with
  | error e2 => simp [is_valid_id]
  | ok o => cases o with
    | none => simp [is_valid_id]
    | some b => simp [is_valid_id]

/-- C5: `verify_signature` succeeds (with body `"Ok"`) exactly when the
`X-Hub-Signature-256` header is present and textual, its value starts with
`"sha256="`, the remainder decodes as hex, and the decoded bytes equal the
HMAC-SHA256 digest of the payload under the secret; every failing case —
missing header, wrong tag, malformed hex, mismatched digest — returns the
single error `VerifySignatureFailed`.  The embedding is a pure function:
verification has no side effects. -/
theorem verify_signature_ok_iff (hmac : String → List Nat → List Nat)
    (payload : List Nat) (headers : List (String × Option String))
    (secret : String) :
    (verify_signature hmac payload headers secret = .ok "Ok" ↔
      ∃ v, headerGet headers "X-Hub-Signature-256" = some v ∧
        ∃ hx, stripSha256Tag v = some hx ∧
          hexDecode hx = some (hmac secret payload))
    ∧ (verify_signature hmac payload headers secret = .ok "Ok"
      ∨ verify_signature hmac payload headers secret =
          .error WebHooksError.VerifySignatureFailed) := by
  constructor
  · constructor
    · intro h
      unfold verify_signature at h
      cases hv : headerGet headers "X-Hub-Signature-256" with
      | none => simp only [hv] at h; exact Except.noConfusion h
      | some v =>
        simp only [hv] at h
        cases hs : stripSha256Tag v with
        | none => simp only [hs] at h; exact Except.noConfusion h
        | some hx =>
          simp only [hs] at h
          cases hd : hexDecode hx with
          | none => simp only [hd] at h; exact Except.noConfusion h
          | some bs =>
            simp only [hd] at h
            by_cases he : hmac secret payload = bs
            · exact ⟨v, rfl, hx, hs, by rw [hd, he]⟩
            · simp only [if_neg he] at h; exact Except.noConfusion h
    · rintro ⟨v, hv, hx, hs, hd⟩
      unfold verify_signature
      simp [hv, hs, hd]
  · unfold verify_signature
    cases hv : headerGet headers "X-Hub-Signature-256" with
    | none => right; rfl
    | some v =>
      cases hs : stripSha256Tag v with
      | none => simp [hs]
      | some hx =>
        cases hd : hexDecode hx with
        | none => simp [hs, hd]
        | some bs =>
          by_cases he : hmac secret payload = bs
          · simp [hs, hd, he]
          · simp [hs, hd, he]

/-- C6: spec-modelled commit atomicity of the Transactional Persistence
Guard: when the staging script fails partway (`crash` appears among the
commands), or the terminal commit itself fails, the persisted store equals
the store from before `begin()` — no partial subset of the batch is
visible. -/
theorem tx_commit_all_or_nothing (s : List Article) (cmds : List StageCmd)
    (commit_ok : Bool)
    (h : StageCmd.crash ∈ cmds ∨ commit_ok = false) :
    runTxScript s cmds commit_ok = s :=
  runTxGo_of_crash commit_ok cmds (txBegin s) h

/-- C6 witness: staging three of five upserts and then failing leaves the
store exactly as it was; none of the five articles is visible. -/
theorem tx_commit_all_or_nothing_witness :
    runTxScript [demoArticle "z"]
      [.up [demoArticle "a1", demoArticle "a2", demoArticle "a3"], .crash,
       .up [demoArticle "a4", demoArticle "a5"]] true = [demoArticle "z"] :=
  tx_commit_all_or_nothing [demoArticle "z"]
    [.up [demoArticle "a1", demoArticle "a2", demoArticle "a3"], .crash,
     .up [demoArticle "a4", demoArticle "a5"]] true (Or.inl (by simp))

/-- C8: evaluation against the code refuting the claim: a push whose
`modified` list holds `image.png` hands that record unfiltered to
`process_modified_files` (which fetches it), and a `removed` record for
`cover.jpg` is handed on untouched as well — only the `added` list is
filtered by `is_valid_file`, which indeed rejects both paths. -/
theorem modified_list_reaches_fetch_unfiltered :
    (process_push_event_lists [] [] [⟨"image.png", "modified", 5, none⟩]).1
      = [⟨"image.png", "modified", 5, none⟩]
    ∧ (process_push_event_lists [⟨"image.png", "added", 5, none⟩]
        [⟨"cover.jpg", "removed", 5, none⟩] []).2.2
      = [⟨"cover.jpg", "removed", 5, none⟩]
    ∧ is_valid_file "image.png" = false
    ∧ is_valid_file "cover.jpg" = false
    ∧ is_valid_file "posts/a.md" = true
    ∧ is_valid_file "posts/a.mdx" = true :=
  ⟨rfl, rfl, rfl, rfl, rfl, rfl⟩

/-- C3: evaluation against the code refuting the claim: with a single
persisted article (id `x` stored at `posts/x.md`) and a push that removes
nothing and adds nothing, reconciliation still places `x` in the delete
set.  The source never reads its `removed` argument: the delete set is every
persisted id that the push's added files did not update, so an article whose
file is not reported as removed is deleted anyway. -/
theorem delete_set_ignores_removed_list :
    process_added_and_removed_event demoExtract (fun _ => [])
      [("x", "posts/x.md")] [] [] 0 = .ok ([], [], ["x"]) := rfl

/-- C4: evaluation against the code refuting the claim: a push with two
fetched added files, the first of which has no parseable front matter,
aborts the whole batch — `extract_article(...)?` propagates the per-file
parse failure, the second (valid) file is never processed, and the batch
returns an error instead of upserting the good file. -/
theorem parse_failure_aborts_batch :
    process_added_and_removed_event demoExtract
      (fun _ => [(1, .ok "bad-doc"), (2, .ok "doc-y")]) [] [] [] 0
      = .error () := rfl

/-- C7: once the signature verifies, the `X-GitHub-Event` header is present
and the payload parses, the webhook endpoint answers `200 OK` with the fixed
body `"Webhook received"` whatever the reconciliation outcome; a failed
signature check rejects with `VerifySignatureFailed` (mapped to 401); a
missing `X-GitHub-Event` header yields `MissingHeader` (mapped to 400). -/
theorem github_webhook_response (hmac : String → List Nat → List Nat)
    (secret : String) (headers : List (String × Option String))
    (body : List Nat) (parse_event : String → List Nat → Except Unit Unit)
    (process_outcome : Except Unit Unit) :
    ((∃ s, verify_signature hmac body headers secret = .ok s) →
      ∀ et, headerGet headers "X-GitHub-Event" = some et →
        parse_event et body = .ok () →
        github_webhook hmac secret headers body parse_event process_outcome
          = .ok "Webhook received")
    ∧ (∀ e, verify_signature hmac body headers secret = .error e →
        github_webhook hmac secret headers body parse_event process_outcome
          = .error (.webhooks e))
    ∧ ((∃ s, verify_signature hmac body headers secret = .ok s) →
        headerGet headers "X-GitHub-Event" = none →
        github_webhook hmac secret headers body parse_event process_outcome
          = .error (.webhooks (.MissingHeader "X-GitHub-Event")))
    ∧ webhooksStatusCode WebHooksError.VerifySignatureFailed = 401
    ∧ webhooksStatusCode (WebHooksError.MissingHeader "X-GitHub-Event")
        = 400 := by
  refine ⟨?_, ?_, ?_, rfl, rfl⟩
  · rintro ⟨s, hs⟩ et het hp
    simp only [github_webhook, hs, het, hp]
    cases process_outcome <;> rfl
  · intro e he
    simp only [github_webhook, he]
  · rintro ⟨s, hs⟩ hn
    simp only [github_webhook, hs, hn]

/-- C7 witness: concrete requests exercising the three response classes. -/
theorem github_webhook_response_witness :
    github_webhook demoHmac "s" demoHeadersOk [1] demoParse (.error ())
      = .ok "Webhook received"
    ∧ github_webhook demoHmac "s" [] [1] demoParse (.error ())
      = .error (.webhooks .VerifySignatureFailed)
    ∧ github_webhook demoHmac "s" demoHeadersNoEvent [1] demoParse
        (.error ()) = .error (.webhooks (.MissingHeader "X-GitHub-Event")) :=
  ⟨(github_webhook_response demoHmac "s" demoHeadersOk [1] demoParse
      (.error ())).1 ⟨"Ok", rfl⟩ "push" rfl rfl,
   (github_webhook_response demoHmac "s" [] [1] demoParse (.error ())).2.1
      .VerifySignatureFailed rfl,
   (github_webhook_response demoHmac "s" demoHeadersNoEvent [1] demoParse
      (.error ())).2.2.1 ⟨"Ok", rfl⟩ rfl⟩

end Mizu
